import Mathlib

/-!
Verification of the rss-feed-agg repository against its design specification.

The repository is a Go feed-following service.  This file shallowly embeds
the parts of the source that the checked claims are about:

* `src/internal/utils/auth.go` — `GetAPIKey` and the database→API converters
  (`convertDatabasePostToAPIPost`, `convertDatabaseFeedsToAPIFeeds`,
  `convertDatabasePostsToAPIPosts`);
* `src/unnamed/part_001` — the `main` start-up sequence, in particular the
  single `go utils.RSSFeedScrapper(db, 10, time.Minute)` call;
* the background ingestion core (scheduler, worker pool, parser,
  dedup/upsert).  Its code is not present under `src/` — only its caller in
  `main` is — so those definitions are modelled from the specification text
  and are marked `Modelled from the spec:` in their doc comments.

Machine types: Go `uuid.UUID` values are modelled as naturals, `time.Time`
instants as integers (Unix nanoseconds); only their identity and order
matter to the claims.
-/

/-- Go `uuid.UUID`, abstracted to a natural number: the claims only ever
compare identifiers for equality and order. -/
abbrev UUID := Nat

/-- Go `time.Time`, abstracted to an integer instant (Unix nanoseconds). -/
abbrev Time := Int

/-- Go `database/sql.NullString`: a string together with a validity flag. -/
structure NullString where
  String : String
  Valid : Bool
deriving Repr, DecidableEq

/-- A set of HTTP headers, modelled by its lookup function: `get k` returns
the first value stored under key `k`, or `""` when the key is absent — the
observable behaviour of Go's `http.Header.Get`, which is the only way the
embedded code reads headers. -/
structure Header where
  get : String → String

namespace utils

/-- Go `strings.Split(s, sep)` for a single-character separator `sep`,
on the character list of the string: splits around every occurrence of the
separator, keeping empty fields, and yields one more field than there are
separators (`[""]` on the empty string, as in Go). -/
def splitChar (c : Char) : List Char → List (List Char)
  | [] => [[]]
  | a :: rest =>
    match splitChar c rest with
    | [] => [[]]
    | g :: gs => if a = c then [] :: g :: gs else (a :: g) :: gs

/-- `strings.Split(val, " ")` from `GetAPIKey` (src/internal/utils/auth.go,
line 15). -/
def splitSpace (s : String) : List String :=
  (splitChar ' ' s.data).map fun l => String.mk l

/-- `GetAPIKey` (src/internal/utils/auth.go, lines 9–25).  Go returns
`(string, error)`; the error is embedded as an `Option String` carrying the
message, `none` meaning a nil error. -/
def GetAPIKey (headers : Header) : String × Option String :=
  let val := headers.get "x-api-key"
  if val = "" then ("", some "no auth info found")
  else
    let vals := splitSpace val
    if vals.length ≠ 2 then ("", some "malformed auth header")
    else if vals.getD 0 "" ≠ "ApiKey" then ("", some "malformed first part of auth header")
    else (vals.getD 1 "", none)

end utils

namespace database

/-- `database.Feed` as used by the converter file (src/internal/utils/auth.go,
handlers part): the fields the feed converters copy. -/
structure Feed where
  ID : UUID
  Name : String
  CreatedAt : Time
  UpdatedAt : Time
  Url : String
  UserID : UUID
deriving Repr, DecidableEq

/-- `database.Post`, with exactly the fields `convertDatabasePostToAPIPost`
reads (src/internal/utils/auth.go, lines 166–182): the generated model file
under src/ is truncated before the Post declaration. -/
structure Post where
  ID : UUID
  Title : String
  Description : NullString
  PublishedAt : Time
  Url : String
  FeedID : UUID
  CreatedAt : Time
  UpdatedAt : Time
deriving Repr, DecidableEq

end database

namespace handlers

/-- API `Feed` struct (src/internal/utils/auth.go, handlers part). -/
structure Feed where
  ID : UUID
  Name : String
  CreatedAt : Time
  UpdatedAt : Time
  Url : String
  UserID : UUID
deriving Repr, DecidableEq

/-- API `Post` struct (src/internal/utils/auth.go, handlers part); the Go
`*string` description is an `Option String`. -/
structure Post where
  ID : UUID
  Title : String
  Description : Option String
  PublishedAt : Time
  Url : String
  FeedID : UUID
  CreatedAt : Time
  UpdatedAt : Time
deriving Repr, DecidableEq

/-- `convertDatabaseFeedToAPIFeed` (src/internal/utils/auth.go). -/
def convertDatabaseFeedToAPIFeed (dbFeed : database.Feed) : Feed :=
  { ID := dbFeed.ID
    Name := dbFeed.Name
    CreatedAt := dbFeed.CreatedAt
    UpdatedAt := dbFeed.UpdatedAt
    Url := dbFeed.Url
    UserID := dbFeed.UserID }

/-- `convertDatabaseFeedsToAPIFeeds` (src/internal/utils/auth.go, lines
121–127): allocates a slice of the input's length and assigns the converted
element at each index — embedded as `List.ofFn` over the index range. -/
def convertDatabaseFeedsToAPIFeeds (dbFeeds : List database.Feed) : List Feed :=
  List.ofFn fun i : Fin dbFeeds.length => convertDatabaseFeedToAPIFeed (dbFeeds.get i)

/-- `convertDatabasePostToAPIPost` (src/internal/utils/auth.go, lines
166–182): the description pointer is set only when the SQL value is valid. -/
def convertDatabasePostToAPIPost (dbPost : database.Post) : Post :=
  let description : Option String :=
    if dbPost.Description.Valid then some dbPost.Description.String else none
  { ID := dbPost.ID
    Title := dbPost.Title
    Url := dbPost.Url
    FeedID := dbPost.FeedID
    PublishedAt := dbPost.PublishedAt
    Description := description
    CreatedAt := dbPost.CreatedAt
    UpdatedAt := dbPost.UpdatedAt }

/-- `convertDatabasePostsToAPIPosts` (src/internal/utils/auth.go, lines
184–190), same indexed-assignment shape as the feed slice converter. -/
def convertDatabasePostsToAPIPosts (dbPosts : List database.Post) : List Post :=
  List.ofFn fun i : Fin dbPosts.length => convertDatabasePostToAPIPost (dbPosts.get i)

end handlers

/-- Claim C8: `GetAPIKey` succeeds exactly when the `x-api-key` header value
is non-empty and splits on spaces into exactly two parts whose first part is
the literal `"ApiKey"`; on success it returns the second part, and otherwise
it returns the empty string with a distinct error message for a missing
header, a wrong number of parts, and a wrong first part. -/
theorem GetAPIKey_spec (headers : Header) :
    ((utils.GetAPIKey headers).2 = none ↔
      headers.get "x-api-key" ≠ "" ∧
      (utils.splitSpace (headers.get "x-api-key")).length = 2 ∧
      (utils.splitSpace (headers.get "x-api-key")).getD 0 "" = "ApiKey") ∧
    ((utils.GetAPIKey headers).2 = none →
      (utils.GetAPIKey headers).1 = (utils.splitSpace (headers.get "x-api-key")).getD 1 "") ∧
    ((utils.GetAPIKey headers).2 ≠ none → (utils.GetAPIKey headers).1 = "") ∧
    (headers.get "x-api-key" = "" →
      utils.GetAPIKey headers = ("", some "no auth info found")) ∧
    (headers.get "x-api-key" ≠ "" →
      (utils.splitSpace (headers.get "x-api-key")).length ≠ 2 →
      utils.GetAPIKey headers = ("", some "malformed auth header")) ∧
    (headers.get "x-api-key" ≠ "" →
      (utils.splitSpace (headers.get "x-api-key")).length = 2 →
      (utils.splitSpace (headers.get "x-api-key")).getD 0 "" ≠ "ApiKey" →
      utils.GetAPIKey headers = ("", some "malformed first part of auth header")) := by
  unfold utils.GetAPIKey
  by_cases hempty : headers.get "x-api-key" = ""
  · simp [hempty]
  · by_cases hlen : (utils.splitSpace (headers.get "x-api-key")).length = 2
    · obtain ⟨a, b, hab⟩ := List.length_eq_two.mp hlen
      by_cases hfst : a = "ApiKey" <;> simp [hempty, hab, hfst]
    · simp [hempty, hlen]

/-- Concrete run of `GetAPIKey_spec`: a well-formed header yields the key. -/
theorem GetAPIKey_spec_witness :
    (utils.GetAPIKey ⟨fun k => if k = "x-api-key" then "ApiKey secret" else ""⟩).2 = none ∧
    (utils.GetAPIKey ⟨fun k => if k = "x-api-key" then "ApiKey secret" else ""⟩).1 = "secret" := by
  have h := GetAPIKey_spec ⟨fun k => if k = "x-api-key" then "ApiKey secret" else ""⟩
  have hok : (utils.GetAPIKey ⟨fun k => if k = "x-api-key" then "ApiKey secret" else ""⟩).2 = none :=
    h.1.mpr (by refine ⟨by decide, by decide, by decide⟩)
  exact ⟨hok, (h.2.1 hok).trans (by decide)⟩

/-- Claim C9: `convertDatabasePostToAPIPost` maps the SQL description to
`none` exactly when it is not valid, otherwise to its string value, and
copies every other field unchanged. -/
theorem convertDatabasePostToAPIPost_spec (dbPost : database.Post) :
    ((handlers.convertDatabasePostToAPIPost dbPost).Description = none ↔
      dbPost.Description.Valid = false) ∧
    (dbPost.Description.Valid = true →
      (handlers.convertDatabasePostToAPIPost dbPost).Description = some dbPost.Description.String) ∧
    (handlers.convertDatabasePostToAPIPost dbPost).ID = dbPost.ID ∧
    (handlers.convertDatabasePostToAPIPost dbPost).Title = dbPost.Title ∧
    (handlers.convertDatabasePostToAPIPost dbPost).Url = dbPost.Url ∧
    (handlers.convertDatabasePostToAPIPost dbPost).FeedID = dbPost.FeedID ∧
    (handlers.convertDatabasePostToAPIPost dbPost).PublishedAt = dbPost.PublishedAt ∧
    (handlers.convertDatabasePostToAPIPost dbPost).CreatedAt = dbPost.CreatedAt ∧
    (handlers.convertDatabasePostToAPIPost dbPost).UpdatedAt = dbPost.UpdatedAt := by
  unfold handlers.convertDatabasePostToAPIPost
  by_cases h : dbPost.Description.Valid <;> simp [h]

/-- Concrete run of `convertDatabasePostToAPIPost_spec` on a post with a
valid description. -/
theorem convertDatabasePostToAPIPost_spec_witness :
    (handlers.convertDatabasePostToAPIPost
      ⟨1, "t", ⟨"hello", true⟩, 5, "http://a", 2, 10, 11⟩).Description = some "hello" :=
  (convertDatabasePostToAPIPost_spec ⟨1, "t", ⟨"hello", true⟩, 5, "http://a", 2, 10, 11⟩).2.1 rfl

/-- Claim C10: the slice converters are the element converters mapped over
the list — same length, i-th output is the conversion of the i-th input,
and the empty slice maps to the empty slice. -/
theorem convert_slices_are_maps :
    (∀ dbFeeds : List database.Feed,
      handlers.convertDatabaseFeedsToAPIFeeds dbFeeds =
        dbFeeds.map handlers.convertDatabaseFeedToAPIFeed ∧
      (handlers.convertDatabaseFeedsToAPIFeeds dbFeeds).length = dbFeeds.length ∧
      ∀ i : Fin dbFeeds.length,
        (handlers.convertDatabaseFeedsToAPIFeeds dbFeeds).getD i.val
            (handlers.convertDatabaseFeedToAPIFeed (dbFeeds.get i)) =
          handlers.convertDatabaseFeedToAPIFeed (dbFeeds.get i)) ∧
    (∀ dbPosts : List database.Post,
      handlers.convertDatabasePostsToAPIPosts dbPosts =
        dbPosts.map handlers.convertDatabasePostToAPIPost ∧
      (handlers.convertDatabasePostsToAPIPosts dbPosts).length = dbPosts.length ∧
      ∀ i : Fin dbPosts.length,
        (handlers.convertDatabasePostsToAPIPosts dbPosts).getD i.val
            (handlers.convertDatabasePostToAPIPost (dbPosts.get i)) =
          handlers.convertDatabasePostToAPIPost (dbPosts.get i)) ∧
    handlers.convertDatabaseFeedsToAPIFeeds [] = [] ∧
    handlers.convertDatabasePostsToAPIPosts [] = [] := by
  have hfeed : ∀ dbFeeds : List database.Feed,
      handlers.convertDatabaseFeedsToAPIFeeds dbFeeds =
        dbFeeds.map handlers.convertDatabaseFeedToAPIFeed := by
    intro l
    unfold handlers.convertDatabaseFeedsToAPIFeeds
    calc List.ofFn (fun i : Fin l.length => handlers.convertDatabaseFeedToAPIFeed (l.get i))
        = (List.ofFn l.get).map handlers.convertDatabaseFeedToAPIFeed := by
          rw [List.map_ofFn]; rfl
      _ = l.map handlers.convertDatabaseFeedToAPIFeed := by rw [List.ofFn_get]
  have hpost : ∀ dbPosts : List database.Post,
      handlers.convertDatabasePostsToAPIPosts dbPosts =
        dbPosts.map handlers.convertDatabasePostToAPIPost := by
    intro l
    unfold handlers.convertDatabasePostsToAPIPosts
    calc List.ofFn (fun i : Fin l.length => handlers.convertDatabasePostToAPIPost (l.get i))
        = (List.ofFn l.get).map handlers.convertDatabasePostToAPIPost := by
          rw [List.map_ofFn]; rfl
      _ = l.map handlers.convertDatabasePostToAPIPost := by rw [List.ofFn_get]
  refine ⟨fun l => ⟨hfeed l, ?_, ?_⟩, fun l => ⟨hpost l, ?_, ?_⟩, ?_, ?_⟩
  · rw [hfeed l, List.length_map]
  · intro i
    rw [hfeed l, List.getD_eq_getElem?_getD, List.getElem?_map]
    simp [List.getElem?_eq_getElem i.isLt]
  · rw [hpost l, List.length_map]
  · intro i
    rw [hpost l, List.getD_eq_getElem?_getD, List.getElem?_map]
    simp [List.getElem?_eq_getElem i.isLt]
  · rw [hfeed []]; rfl
  · rw [hpost []]; rfl

namespace main

/-- One action of the process start-up sequence of `main`
(src/unnamed/part_001). `startScrapper n secs` is the single
`go utils.RSSFeedScrapper(db, n, interval)` call: besides the storage
handle it takes exactly the two configuration values, a worker concurrency
count and a tick interval (embedded in seconds, `time.Minute` = 60). -/
inductive StartupAction where
  | loadEnv
  | initRedis
  | openPostgres
  | startScrapper (concurrency : Nat) (intervalSeconds : Nat)
  | registerRoute (method : String) (path : String)
  | pingPostgres
  | startHTTPServer (port : String)
  | waitShutdown
deriving Repr, DecidableEq

/-- The start-up sequence of `main` (src/unnamed/part_001, lines 24–108) in
source order, for the port resolved from the environment. -/
def mainStartupActions (port : String) : List StartupAction :=
  [ .loadEnv,
    .initRedis,
    .openPostgres,
    .startScrapper 10 60,
    .pingPostgres,
    .registerRoute "GET" "/health",
    .registerRoute "GET" "/error",
    .registerRoute "POST" "/users/create",
    .registerRoute "POST" "/users/login",
    .registerRoute "GET" "/users",
    .registerRoute "POST" "/feeds/create",
    .registerRoute "GET" "/feeds",
    .registerRoute "POST" "/feeds/follow",
    .registerRoute "GET" "/feeds/follow",
    .registerRoute "DELETE" "/feeds/follow/{feedFollowID}",
    .registerRoute "GET" "/posts",
    .startHTTPServer port,
    .waitShutdown ]

/-- Recognises the ingestion-core start among start-up actions. -/
def isScrapperStart : StartupAction → Bool
  | .startScrapper _ _ => true
  | _ => false

end main

/-- Claim C7: the ingestion core is started exactly once during process
start-up, by a single call whose configuration is exactly a worker
concurrency count (10) and a tick interval (one minute); it is not one of
the registered HTTP routes nor the HTTP server itself, for any resolved
port. -/
theorem scrapper_started_once (port : String) :
    (main.mainStartupActions port).filter main.isScrapperStart =
      [main.StartupAction.startScrapper 10 60] ∧
    (∀ m p, main.isScrapperStart (main.StartupAction.registerRoute m p) = false) ∧
    (∀ p, main.isScrapperStart (main.StartupAction.startHTTPServer p) = false) := by
  exact ⟨rfl, fun m p => rfl, fun p => rfl⟩

namespace scraper

/-- Modelled from the spec: the ingestion-side `Feed` record — identifier,
display name, source URL, optional owning user, bookkeeping timestamps and
the nullable last-fetched timestamp (`none` = never fetched).  The scraper
code and the feed model's ingestion columns are not under src/ (the
generated model file is truncated); fields follow §3 of the spec. -/
structure Feed where
  ID : UUID
  Name : String
  Url : String
  UserID : Option UUID
  CreatedAt : Time
  UpdatedAt : Time
  LastFetchedAt : Option Time
deriving Repr, DecidableEq

/-- Modelled from the spec: a feed created by the CRUD layer starts with a
null last-fetched timestamp — "null means never fetched". -/
def newFeed (id : UUID) (name url : String) (userID : Option UUID)
    (createdAt updatedAt : Time) : Feed :=
  { ID := id, Name := name, Url := url, UserID := userID,
    CreatedAt := createdAt, UpdatedAt := updatedAt, LastFetchedAt := none }

/-- Modelled from the spec: a stored `Post` row — identifier, title,
optional description, canonical URL, published timestamp, owning feed. -/
structure Post where
  ID : UUID
  Title : String
  Description : Option String
  PublishedAt : Time
  Url : String
  FeedID : UUID
deriving Repr, DecidableEq

/-- Post storage, modelled as the list of stored rows. -/
abbrev Store := List Post

/-- Modelled from the spec: a Candidate Post — the parser's output before
persistence: same fields as Post minus identifier and feed binding. -/
structure CandidatePost where
  Title : String
  Url : String
  Description : Option String
  PublishedAt : Time
deriving Repr, DecidableEq

/-- Modelled from the spec: result of `createPost` —
`success | UniqueConflict | failure`.  The pure model has no external
failure source, so `failure` is never produced here. -/
inductive CreatePostResult where
  | success
  | uniqueConflict
  | failure
deriving Repr, DecidableEq

/-- Whether some stored row already has this canonical URL (globally, not
per feed). -/
def urlExists (store : Store) (url : String) : Bool :=
  store.any fun p => p.Url = url

/-- Modelled from the spec: `createPost(feedID, title, url, description?,
publishedAt)` under the storage-level uniqueness constraint on URL — the
insert is attempted and a duplicate canonical URL yields `UniqueConflict`
with the storage unchanged; there is no pre-read-then-write check. -/
def createPost (store : Store) (feedID : UUID) (c : CandidatePost) :
    CreatePostResult × Store :=
  if urlExists store c.Url then (.uniqueConflict, store)
  else (.success,
    store ++ [{ ID := store.length, Title := c.Title, Description := c.Description,
                PublishedAt := c.PublishedAt, Url := c.Url, FeedID := feedID }])

/-- One storage call issued by a feed-cycle, for counting side effects. -/
inductive StorageCall where
  | createPost (feedID : UUID) (url : String)
  | markFeedFetched (feedID : UUID) (t : Time)
deriving Repr, DecidableEq

/-- Recognises the freshness-marker update among storage calls. -/
def isMarkCall : StorageCall → Bool
  | .markFeedFetched _ _ => true
  | _ => false

/-- Modelled from the spec: the dedup/upsert step — attempt `createPost`
for each candidate in order, treating a `UniqueConflict` as a skip; returns
the resulting storage and the trace of storage calls it issued. -/
def dedupUpsert (store : Store) (feedID : UUID) :
    List CandidatePost → Store × List StorageCall
  | [] => (store, [])
  | c :: rest =>
    let store' := (createPost store feedID c).2
    let r := dedupUpsert store' feedID rest
    (r.1, StorageCall.createPost feedID c.Url :: r.2)

/-- Modelled from the spec: `markFeedFetched(feedID, timestamp)` advances
the feed's last-fetched timestamp. -/
def markFeedFetched (f : Feed) (t : Time) : Feed :=
  { f with LastFetchedAt := some t }

/-- Modelled from the spec: one worker's feed-cycle over its candidates —
dedup/upsert every candidate, then, after all candidates are attempted,
a single `markFeedFetched` advancing the feed's marker to the fetch start
time.  Returns the new storage, the new feed state, and the storage-call
trace. -/
def feedCycle (store : Store) (feed : Feed) (fetchStart : Time)
    (cs : List CandidatePost) : Store × Feed × List StorageCall :=
  let r := dedupUpsert store feed.ID cs
  (r.1, markFeedFetched feed fetchStart,
    r.2 ++ [StorageCall.markFeedFetched feed.ID fetchStart])

end scraper

namespace scraper

/-- A URL present in storage stays present across any `createPost`. -/
theorem urlExists_createPost (store : Store) (feedID : UUID) (c : CandidatePost)
    (u : String) (h : urlExists store u = true) :
    urlExists (createPost store feedID c).2 u = true := by
  unfold createPost
  by_cases hc : urlExists store c.Url = true
  · rw [if_pos hc]; exact h
  · rw [if_neg hc]
    unfold urlExists at h ⊢
    rw [List.any_append, h, Bool.true_or]

/-- After attempting a candidate, its canonical URL is present in storage. -/
theorem urlExists_createPost_self (store : Store) (feedID : UUID) (c : CandidatePost) :
    urlExists (createPost store feedID c).2 c.Url = true := by
  unfold createPost
  by_cases hc : urlExists store c.Url = true
  · rw [if_pos hc]; exact hc
  · rw [if_neg hc]
    simp [urlExists, List.any_append]

/-- A URL present in storage stays present across a whole dedup/upsert run. -/
theorem urlExists_dedupUpsert (feedID : UUID) (cs : List CandidatePost)
    (store : Store) (u : String) (h : urlExists store u = true) :
    urlExists (dedupUpsert store feedID cs).1 u = true := by
  induction cs generalizing store with
  | nil => simpa [dedupUpsert]
  | cons c rest ih =>
    simp only [dedupUpsert]
    exact ih _ (urlExists_createPost store feedID c u h)

/-- After a dedup/upsert run, every attempted candidate's URL is present. -/
theorem dedupUpsert_all_present (feedID : UUID) (cs : List CandidatePost)
    (store : Store) (c : CandidatePost) (hc : c ∈ cs) :
    urlExists (dedupUpsert store feedID cs).1 c.Url = true := by
  induction cs generalizing store with
  | nil => cases hc
  | cons c0 rest ih =>
    rcases List.mem_cons.mp hc with h0 | hrest
    · subst h0
      simp only [dedupUpsert]
      exact urlExists_dedupUpsert feedID rest _ c.Url
        (urlExists_createPost_self store feedID c)
    · simp only [dedupUpsert]
      exact ih _ hrest

/-- If every candidate's URL is already present, dedup/upsert is a no-op on
storage: every insert hits the uniqueness conflict. -/
theorem dedupUpsert_noop (feedID : UUID) (cs : List CandidatePost)
    (store : Store) (h : ∀ c ∈ cs, urlExists store c.Url = true) :
    (dedupUpsert store feedID cs).1 = store := by
  induction cs generalizing store with
  | nil => simp [dedupUpsert]
  | cons c rest ih =>
    have hc : urlExists store c.Url = true := h c (List.mem_cons_self c rest)
    have hkeep : (createPost store feedID c).2 = store := by
      unfold createPost; simp [hc]
    simp only [dedupUpsert, hkeep]
    exact ih _ fun d hd => h d (List.mem_cons_of_mem c hd)

/-- The dedup/upsert loop issues only `createPost` calls, never a
freshness-marker update. -/
theorem dedupUpsert_no_mark (feedID : UUID) (cs : List CandidatePost)
    (store : Store) :
    (dedupUpsert store feedID cs).2.filter isMarkCall = [] := by
  induction cs generalizing store with
  | nil => simp [dedupUpsert]
  | cons c rest ih =>
    simp only [dedupUpsert, List.filter_cons]
    simpa [isMarkCall] using ih ((createPost store feedID c).2)

end scraper

/-- Claim C1: a `createPost` whose canonical URL is already stored yields
`UniqueConflict` and leaves storage unchanged; consequently running the
dedup/upsert step a second time on the identical candidate set for the same
feed leaves storage — in particular the stored post count — unchanged. -/
theorem createPost_unique_idempotent :
    (∀ (store : scraper.Store) (feedID : UUID) (c : scraper.CandidatePost),
      scraper.urlExists store c.Url = true →
      scraper.createPost store feedID c = (scraper.CreatePostResult.uniqueConflict, store)) ∧
    (∀ (store : scraper.Store) (feedID : UUID) (cs : List scraper.CandidatePost),
      (scraper.dedupUpsert (scraper.dedupUpsert store feedID cs).1 feedID cs).1 =
        (scraper.dedupUpsert store feedID cs).1 ∧
      (scraper.dedupUpsert (scraper.dedupUpsert store feedID cs).1 feedID cs).1.length =
        (scraper.dedupUpsert store feedID cs).1.length) := by
  constructor
  · intro store feedID c h
    unfold scraper.createPost
    simp [h]
  · intro store feedID cs
    have hfix : (scraper.dedupUpsert (scraper.dedupUpsert store feedID cs).1 feedID cs).1 =
        (scraper.dedupUpsert store feedID cs).1 :=
      scraper.dedupUpsert_noop feedID cs _
        fun c hc => scraper.dedupUpsert_all_present feedID cs store c hc
    exact ⟨hfix, by rw [hfix]⟩

/-- Concrete run of `createPost_unique_idempotent`: inserting a candidate
whose URL is already stored conflicts and changes nothing. -/
theorem createPost_unique_idempotent_witness :
    scraper.createPost [⟨0, "a", none, 1, "http://x", 3⟩] 3 ⟨"b", "http://x", none, 2⟩ =
      (scraper.CreatePostResult.uniqueConflict, [⟨0, "a", none, 1, "http://x", 3⟩]) :=
  createPost_unique_idempotent.1 [⟨0, "a", none, 1, "http://x", 3⟩] 3
    ⟨"b", "http://x", none, 2⟩ (by decide)

/-- Claim C4: every feed-cycle issues exactly one `markFeedFetched` call —
whatever the candidates and however many of them are duplicates — and that
call, and the resulting feed state, carry the fetch start time as the new
last-fetched timestamp. -/
theorem feedCycle_marks_once (store : scraper.Store) (feed : scraper.Feed)
    (fetchStart : Time) (cs : List scraper.CandidatePost) :
    (scraper.feedCycle store feed fetchStart cs).2.2.filter scraper.isMarkCall =
      [scraper.StorageCall.markFeedFetched feed.ID fetchStart] ∧
    (scraper.feedCycle store feed fetchStart cs).2.1.LastFetchedAt = some fetchStart := by
  constructor
  · simp only [scraper.feedCycle, List.filter_append,
      scraper.dedupUpsert_no_mark feed.ID cs store]
    simp [scraper.isMarkCall]
  · simp [scraper.feedCycle, scraper.markFeedFetched]

namespace scraper

/-- Modelled from the spec: one syndication item as decoded from the
document — title, link, description and published timestamp may each be
absent or unresolvable. -/
structure RawItem where
  title : Option String
  link : Option String
  description : Option String
  pubDate : Option Time
deriving Repr, DecidableEq

/-- Modelled from the spec: per-item parsing — an item with no resolvable
link is dropped (`none`, never fatal to the feed); a missing title falls
back to the empty string; an unparsable published timestamp falls back to
the fetch time. -/
def parseItem (fetchTime : Time) (it : RawItem) : Option CandidatePost :=
  match it.link with
  | none => none
  | some url =>
    some ⟨it.title.getD "", url, it.description, it.pubDate.getD fetchTime⟩

/-- Modelled from the spec: parsing the item sequence of an accepted
syndication document — output order mirrors document order; dropped items
do not fail the parse of the rest. -/
def parseItems (fetchTime : Time) (items : List RawItem) : List CandidatePost :=
  items.filterMap (parseItem fetchTime)

/-- Modelled from the spec: an accepted Atom document, reduced to its
ordered sequence of entry elements. -/
structure AtomDocument where
  entries : List RawItem
deriving Repr, DecidableEq

/-- Modelled from the spec: parsing an accepted Atom document parses its
entries in document order. -/
def parseAtomDocument (fetchTime : Time) (doc : AtomDocument) : List CandidatePost :=
  parseItems fetchTime doc.entries

/-- An item with no link parses to nothing. -/
theorem parseItem_of_link_none (fetchTime : Time) (it : RawItem)
    (hl : it.link = none) : parseItem fetchTime it = none := by
  unfold parseItem; rw [hl]

/-- An item with a link parses to a candidate with the fallback fields. -/
theorem parseItem_of_link_some (fetchTime : Time) (it : RawItem) (url : String)
    (hl : it.link = some url) :
    parseItem fetchTime it =
      some ⟨it.title.getD "", url, it.description, it.pubDate.getD fetchTime⟩ := by
  unfold parseItem; rw [hl]

/-- Exactly the items with a resolvable link survive parsing. -/
theorem parseItems_length (fetchTime : Time) (items : List RawItem) :
    (parseItems fetchTime items).length =
      (items.filter fun it => it.link.isSome).length := by
  induction items with
  | nil => rfl
  | cons it rest ih =>
    cases hl : it.link with
    | none =>
      simp only [parseItems, List.filterMap_cons, parseItem_of_link_none fetchTime it hl,
        List.filter_cons, hl, Option.isSome_none, Bool.false_eq_true, if_false]
      exact ih
    | some url =>
      simp only [parseItems, List.filterMap_cons, parseItem_of_link_some fetchTime it url hl,
        List.filter_cons, hl, Option.isSome_some, if_true, List.length_cons]
      exact congrArg Nat.succ ih

end scraper

/-- Claim C6: an item lacking a resolvable link is dropped without failing
the parse of the rest; an item lacking a title yields a candidate post with
an empty title; and a valid Atom document with three entries of which one
is missing a link yields exactly two candidate posts, in document order. -/
theorem parser_linkless_dropped (fetchTime : Time) :
    (∀ (pre post : List scraper.RawItem) (ti d : Option String) (p : Option Time),
      scraper.parseItems fetchTime (pre ++ ⟨ti, none, d, p⟩ :: post) =
        scraper.parseItems fetchTime pre ++ scraper.parseItems fetchTime post) ∧
    (∀ items : List scraper.RawItem,
      (scraper.parseItems fetchTime items).length =
        (items.filter fun it => it.link.isSome).length) ∧
    (∀ (url : String) (d : Option String) (p : Option Time),
      scraper.parseItem fetchTime ⟨none, some url, d, p⟩ =
        some ⟨"", url, d, p.getD fetchTime⟩) ∧
    scraper.parseAtomDocument 100
        ⟨[⟨some "e1", some "http://a/1", none, some 11⟩,
          ⟨some "e2", none, none, some 12⟩,
          ⟨some "e3", some "http://a/3", none, some 13⟩]⟩ =
      [⟨"e1", "http://a/1", none, 11⟩, ⟨"e3", "http://a/3", none, 13⟩] := by
  refine ⟨?_, scraper.parseItems_length fetchTime, fun url d p => rfl, rfl⟩
  intro pre post ti d p
  simp only [scraper.parseItems, List.filterMap_append, List.filterMap_cons,
    scraper.parseItem_of_link_none fetchTime ⟨ti, none, d, p⟩ rfl]

namespace scraper

/-- Null-marker rank: never-fetched feeds sort ahead of fetched ones. -/
def feedRank (f : Feed) : Nat :=
  match f.LastFetchedAt with
  | none => 0
  | some _ => 1

/-- Time component of the selection key (irrelevant when never fetched). -/
def feedRankTime (f : Feed) : Int :=
  match f.LastFetchedAt with
  | none => 0
  | some t => t

/-- The scheduler's selection key: null rank, then last-fetched time, then
feed identifier, compared lexicographically. -/
def feedKey (f : Feed) : Lex (Nat × Lex (Int × Nat)) :=
  toLex (feedRank f, toLex (feedRankTime f, f.ID))

/-- Modelled from the spec: the scheduler's selection order — last-fetched
ascending with nulls sorted first, ties broken by feed identifier. -/
def feedOrder (a b : Feed) : Prop :=
  feedKey a ≤ feedKey b

instance : DecidableRel feedOrder := fun a b => by
  unfold feedOrder
  infer_instance

instance : IsTotal Feed feedOrder :=
  ⟨fun a b => le_total (feedKey a) (feedKey b)⟩

instance : IsTrans Feed feedOrder :=
  ⟨fun _ _ _ hab hbc => le_trans hab hbc⟩

/-- Modelled from the spec: `listFeedsToFetch(limit)` — the `limit` feeds
least recently fetched, nulls first, ties by identifier. -/
def listFeedsToFetch (feeds : List Feed) (limit : Nat) : List Feed :=
  (List.insertionSort feedOrder feeds).take limit

/-- The selection order implies the spec's rank description. -/
theorem feedOrder_rank (a b : Feed) (h : feedOrder a b) :
    (a.LastFetchedAt = none ∧ b.LastFetchedAt ≠ none) ∨
    (a.LastFetchedAt = none ∧ b.LastFetchedAt = none ∧ a.ID ≤ b.ID) ∨
    (∃ x y, a.LastFetchedAt = some x ∧ b.LastFetchedAt = some y ∧
      (x < y ∨ (x = y ∧ a.ID ≤ b.ID))) := by
  unfold feedOrder feedKey at h
  rw [Prod.Lex.le_iff] at h
  cases ha : a.LastFetchedAt with
  | none =>
    cases hb : b.LastFetchedAt with
    | none =>
      refine Or.inr (Or.inl ⟨rfl, rfl, ?_⟩)
      simp only [feedRank, feedRankTime, ha, hb, lt_self_iff_false, false_or,
        true_and] at h
      rw [Prod.Lex.le_iff] at h
      simpa using h
    | some y => exact Or.inl ⟨rfl, by simp [hb]⟩
  | some x =>
    cases hb : b.LastFetchedAt with
    | none =>
      simp only [feedRank, feedRankTime, ha, hb] at h
      rcases h with h | ⟨h1, -⟩
      · exact absurd h (by norm_num)
      · exact absurd h1 (by norm_num)
    | some y =>
      refine Or.inr (Or.inr ⟨x, y, rfl, rfl, ?_⟩)
      simp only [feedRank, feedRankTime, ha, hb, lt_self_iff_false, false_or,
        true_and] at h
      rw [Prod.Lex.le_iff] at h
      simpa using h

end scraper

/-- Claim C2: scheduler selection ranks every never-fetched feed ahead of
every fetched one, orders fetched feeds by last-fetched ascending with ties
broken by identifier, and `listFeedsToFetch(limit)` returns exactly the
first `limit` feeds of that order: its length is `min limit (#feeds)`, a
smaller limit yields an initial segment of a larger one, and the full
selection is a permutation of the feeds. -/
theorem listFeedsToFetch_spec (feeds : List scraper.Feed) (limit : Nat) :
    (scraper.listFeedsToFetch feeds limit).length = min limit feeds.length ∧
    List.Pairwise (fun a b : scraper.Feed =>
        (a.LastFetchedAt = none ∧ b.LastFetchedAt ≠ none) ∨
        (a.LastFetchedAt = none ∧ b.LastFetchedAt = none ∧ a.ID ≤ b.ID) ∨
        (∃ x y, a.LastFetchedAt = some x ∧ b.LastFetchedAt = some y ∧
          (x < y ∨ (x = y ∧ a.ID ≤ b.ID))))
      (scraper.listFeedsToFetch feeds limit) ∧
    (∀ limit2, limit ≤ limit2 →
      scraper.listFeedsToFetch feeds limit <+: scraper.listFeedsToFetch feeds limit2) ∧
    (scraper.listFeedsToFetch feeds feeds.length).Perm feeds := by
  have hperm : (List.insertionSort scraper.feedOrder feeds).Perm feeds :=
    List.perm_insertionSort scraper.feedOrder feeds
  have hlen : (List.insertionSort scraper.feedOrder feeds).length = feeds.length :=
    hperm.length_eq
  refine ⟨?_, ?_, ?_, ?_⟩
  · rw [scraper.listFeedsToFetch, List.length_take, hlen]
  · have hsorted : List.Pairwise scraper.feedOrder
        (List.insertionSort scraper.feedOrder feeds) :=
      List.sorted_insertionSort scraper.feedOrder feeds
    have htake : List.Pairwise scraper.feedOrder (scraper.listFeedsToFetch feeds limit) :=
      hsorted.sublist (List.take_sublist limit _)
    exact htake.imp fun h => scraper.feedOrder_rank _ _ h
  · intro limit2 h12
    rw [scraper.listFeedsToFetch, scraper.listFeedsToFetch,
      show limit = min limit limit2 from (Nat.min_eq_left h12).symm, ← List.take_take]
    exact List.take_prefix limit _
  · rw [scraper.listFeedsToFetch, ← hlen, List.take_length]
    exact hperm

/-- Concrete run of `listFeedsToFetch_spec`: with feed A never fetched and
feed B fetched earlier, batch size 1 selects A, and the batch of 1 is an
initial segment of the batch of 2. -/
theorem listFeedsToFetch_spec_witness :
    (scraper.listFeedsToFetch [⟨2, "B", "http://b", none, 0, 0, some 100⟩,
        ⟨1, "A", "http://a", none, 0, 0, none⟩] 1 <+:
      scraper.listFeedsToFetch [⟨2, "B", "http://b", none, 0, 0, some 100⟩,
        ⟨1, "A", "http://a", none, 0, 0, none⟩] 2) ∧
    scraper.listFeedsToFetch [⟨2, "B", "http://b", none, 0, 0, some 100⟩,
        ⟨1, "A", "http://a", none, 0, 0, none⟩] 1 =
      [⟨1, "A", "http://a", none, 0, 0, none⟩] :=
  ⟨(listFeedsToFetch_spec [⟨2, "B", "http://b", none, 0, 0, some 100⟩,
      ⟨1, "A", "http://a", none, 0, 0, none⟩] 1).2.2.1 2 (by decide),
   by decide⟩

namespace scraper

/-- Modelled from the spec: the states a feed passes through across
successive feed-cycles — `runCycles` threads storage and the feed through a
list of cycles, each given by its fetch start time and candidate set. -/
def runCycles (store : Store) (feed : Feed) :
    List (Time × List CandidatePost) → Store × Feed
  | [] => (store, feed)
  | (t, cs) :: rest =>
    let r := feedCycle store feed t cs
    runCycles r.1 r.2.1 rest

/-- The fetch start times of a cycle list advance with the wall clock: each
is at least the marker it starts from, and each later cycle starts no
earlier than the marker the previous cycle set. -/
def TimesMono : Option Time → List (Time × List CandidatePost) → Prop
  | _, [] => True
  | none, (t, _) :: rest => TimesMono (some t) rest
  | some t0, (t, _) :: rest => t0 ≤ t ∧ TimesMono (some t) rest

/-- Feed `g` is at least as fresh as `f`: a marker once set stays set and
never decreases. -/
def freshLE (f g : Feed) : Prop :=
  ∀ t, f.LastFetchedAt = some t → ∃ u, g.LastFetchedAt = some u ∧ t ≤ u

/-- Under a monotone clock, a run of feed-cycles only advances the
last-fetched marker. -/
theorem runCycles_fresh (store : Store) (feed : Feed)
    (cycles : List (Time × List CandidatePost))
    (h : TimesMono feed.LastFetchedAt cycles) :
    freshLE feed (runCycles store feed cycles).2 := by
  induction cycles generalizing store feed with
  | nil => exact fun t ht => ⟨t, ht, le_refl t⟩
  | cons c rest ih =>
    obtain ⟨tc, cs⟩ := c
    intro t ht
    rw [ht] at h
    simp only [TimesMono] at h
    have hfeed : ((feedCycle store feed tc cs).2.1).LastFetchedAt = some tc := rfl
    have ih' := ih (feedCycle store feed tc cs).1 (feedCycle store feed tc cs).2.1
      (by rw [hfeed]; exact h.2)
    obtain ⟨u, hu, htu⟩ := ih' tc hfeed
    exact ⟨u, hu, le_trans h.1 htu⟩

end scraper

/-- Claim C3: every feed record carries a nullable last-fetched timestamp
and a freshly created feed's is null (never fetched); once set, the marker
is monotonically non-decreasing across all subsequent states of any run of
ingestion-pipeline cycles whose fetch start times track the advancing
clock. -/
theorem lastFetched_monotone :
    (∀ (id : UUID) (name url : String) (userID : Option UUID) (c u : Time),
      (scraper.newFeed id name url userID c u).LastFetchedAt = none) ∧
    (∀ (store : scraper.Store) (feed : scraper.Feed)
        (cycles : List (Time × List scraper.CandidatePost)),
      scraper.TimesMono feed.LastFetchedAt cycles →
      scraper.freshLE feed (scraper.runCycles store feed cycles).2) :=
  ⟨fun _ _ _ _ _ _ => rfl,
   fun store feed cycles h => scraper.runCycles_fresh store feed cycles h⟩

/-- Concrete run of `lastFetched_monotone`: a feed with marker 3 run through
cycles fetched at times 5 and 7 ends with a marker at least 3 (namely 7). -/
theorem lastFetched_monotone_witness :
    ∃ u, (scraper.runCycles [] ⟨9, "F", "http://f", none, 0, 0, some 3⟩
        [(5, []), (7, [])]).2.LastFetchedAt = some u ∧ (3 : Time) ≤ u :=
  lastFetched_monotone.2 [] ⟨9, "F", "http://f", none, 0, 0, some 3⟩
    [(5, []), (7, [])] ⟨by decide, by decide, trivial⟩ 3 rfl

namespace scraper

/-- Modelled from the spec: the in-flight phases of one feed-cycle. -/
inductive CyclePhase where
  | fetching
  | parsing
  | persisting
deriving Repr, DecidableEq

/-- The phase following a successful step of the per-feed pipeline. -/
def nextPhase : CyclePhase → CyclePhase
  | .fetching => .parsing
  | .parsing => .persisting
  | .persisting => .persisting

/-- Modelled from the spec: worker-pool state — feeds queued waiting for a
worker slot, and the feed-cycles currently in flight with their phase. -/
structure PoolState where
  queued : List UUID
  inFlight : List (UUID × CyclePhase)
deriving Repr, DecidableEq

/-- Modelled from the spec: one scheduling event of the pool under
concurrency limit `limit`: a tick enqueues a batch of feeds; a queued feed
is dispatched into `Fetching` only when a worker slot is free; an in-flight
cycle advances fetching → parsing → persisting; and a cycle leaves the pool
when it completes or fails (any phase may fail), freeing its slot. -/
inductive PoolStep (limit : Nat) : PoolState → PoolState → Prop where
  | enqueue (s : PoolState) (batch : List UUID) :
      PoolStep limit s ⟨s.queued ++ batch, s.inFlight⟩
  | dispatch (s : PoolState) (f : UUID) (rest : List UUID)
      (hq : s.queued = f :: rest) (hslot : s.inFlight.length < limit) :
      PoolStep limit s ⟨rest, s.inFlight ++ [(f, CyclePhase.fetching)]⟩
  | advance (s : PoolState) (pre post : List (UUID × CyclePhase))
      (f : UUID) (ph : CyclePhase) (hin : s.inFlight = pre ++ (f, ph) :: post) :
      PoolStep limit s ⟨s.queued, pre ++ (f, nextPhase ph) :: post⟩
  | finish (s : PoolState) (pre post : List (UUID × CyclePhase))
      (f : UUID) (ph : CyclePhase) (hin : s.inFlight = pre ++ (f, ph) :: post) :
      PoolStep limit s ⟨s.queued, pre ++ post⟩

/-- One pool event never pushes the number of in-flight cycles past the
concurrency limit. -/
theorem poolStep_bound (limit : Nat) (s s2 : PoolState)
    (hstep : PoolStep limit s s2) (hs : s.inFlight.length ≤ limit) :
    s2.inFlight.length ≤ limit := by
  cases hstep with
  | enqueue batch => exact hs
  | dispatch f rest hq hslot =>
    simp only [List.length_append, List.length_cons, List.length_nil]
    omega
  | advance pre post f ph hin =>
    rw [hin] at hs
    simp only [List.length_append, List.length_cons] at hs ⊢
    omega
  | finish pre post f ph hin =>
    rw [hin] at hs
    simp only [List.length_append, List.length_cons] at hs ⊢
    omega

end scraper

/-- Claim C5: from any pool state with at most `limit` cycles in flight —
in particular from the idle start state — every state reachable by pool
events keeps at most `limit` feed-cycles simultaneously in the
fetching/parsing/persisting phases; queued feeds wait until a slot frees. -/
theorem pool_concurrency_bound (limit : Nat) (init s : scraper.PoolState)
    (hinit : init.inFlight.length ≤ limit)
    (hreach : Relation.ReflTransGen (scraper.PoolStep limit) init s) :
    s.inFlight.length ≤ limit := by
  induction hreach with
  | refl => exact hinit
  | tail hr hstep ih => exact scraper.poolStep_bound limit _ _ hstep ih

/-- Concrete run of `pool_concurrency_bound`: dispatching one queued feed
into an idle pool of limit 2 stays within the bound. -/
theorem pool_concurrency_bound_witness :
    (scraper.PoolState.mk [2, 3] [(1, scraper.CyclePhase.fetching)]).inFlight.length ≤ 2 :=
  pool_concurrency_bound 2 ⟨[1, 2, 3], []⟩ ⟨[2, 3], [(1, scraper.CyclePhase.fetching)]⟩
    (by decide)
    (Relation.ReflTransGen.single
      (scraper.PoolStep.dispatch ⟨[1, 2, 3], []⟩ 1 [2, 3] rfl (by decide)))
